import Mathlib

/-
Verification of the novel-splitter backend (src/src-tauri/src) against its
natural-language specification.

The Rust sources are shallowly embedded:
  * pure string/byte manipulation is translated function by function,
  * effectful calls (HTTP, the embedded browser worker, the download of a
    chapter) are passed in as explicit oracles/environment records,
  * the filesystem state relevant to the pipeline (the set of chapter files
    in a novel directory) is threaded explicitly,
  * UI event emission is modelled by accumulating the emitted payloads in a
    list, in emission order.
Rust `String` values are modelled as Lean `String`; where the source indexes
by *bytes* (the SSE parsing loop of ai.rs), the buffer is modelled as the
list of its UTF-8 bytes.
-/

deriving instance DecidableEq for Except

namespace NS

/-! ## UTF-8 byte-level modelling

`ai.rs` accumulates the response stream in a Rust `String` and manipulates it
with byte indices (`find`, `remove`, `buffer[idx+1..]`).  We model that
buffer as the list of its UTF-8 code units. -/

/-- UTF-8 encoding of a single scalar value (the unique valid encoding). -/
def utf8EncodeChar (c : Char) : List Nat :=
  let n := c.toNat
  if n < 0x80 then [n]
  else if n < 0x800 then [0xC0 + n / 64, 0x80 + n % 64]
  else if n < 0x10000 then [0xE0 + n / 4096, 0x80 + n / 64 % 64, 0x80 + n % 64]
  else [0xF0 + n / 0x40000, 0x80 + n / 4096 % 64, 0x80 + n / 64 % 64, 0x80 + n % 64]

/-- The UTF-8 bytes of a string (Rust `str::as_bytes`). -/
def strBytes (s : String) : List Nat := (s.data.map utf8EncodeChar).flatten

/-- Byte width of the UTF-8 sequence led by byte `b`, as Rust computes it for
the first char of a (valid) `String` in `String::remove`.  A continuation
byte cannot lead a char of a valid Rust `String`; the value returned for it
here (1) is never relied upon. -/
def rustCharWidth (b : Nat) : Nat :=
  if b < 0x80 then 1
  else if b < 0xC0 then 1
  else if b < 0xE0 then 2
  else if b < 0xF0 then 3
  else 4

/-- Decode UTF-8 bytes back to characters (total via fuel; on the valid
encodings produced by `strBytes` this is the exact inverse, and the model is
only ever applied to such bytes). -/
def utf8DecodeAux : Nat → List Nat → List Char
  | 0, _ => []
  | _, [] => []
  | f + 1, b :: rest =>
    if b < 0x80 then Char.ofNat b :: utf8DecodeAux f rest
    else if b < 0xC0 then Char.ofNat 0xFFFD :: utf8DecodeAux f rest
    else if b < 0xE0 then
      match rest with
      | b1 :: r => Char.ofNat ((b - 0xC0) * 64 + (b1 - 0x80)) :: utf8DecodeAux f r
      | [] => [Char.ofNat 0xFFFD]
    else if b < 0xF0 then
      match rest with
      | b1 :: b2 :: r =>
        Char.ofNat ((b - 0xE0) * 4096 + (b1 - 0x80) * 64 + (b2 - 0x80)) :: utf8DecodeAux f r
      | _ => [Char.ofNat 0xFFFD]
    else
      match rest with
      | b1 :: b2 :: b3 :: r =>
        Char.ofNat ((b - 0xF0) * 0x40000 + (b1 - 0x80) * 4096 + (b2 - 0x80) * 64 + (b3 - 0x80))
          :: utf8DecodeAux f r
      | _ => [Char.ofNat 0xFFFD]

/-- Decode a byte list to the string it encodes. -/
def utf8Decode (bs : List Nat) : String := String.mk (utf8DecodeAux bs.length bs)

/-! ## Rust string helpers shared by several translated functions -/

/-- Rust `char::is_whitespace` (the Unicode White_Space property). -/
def rustIsWhitespace (c : Char) : Bool :=
  c.toNat = 0x20 || (0x9 ≤ c.toNat && c.toNat ≤ 0xD) ||
  c.toNat = 0x85 || c.toNat = 0xA0 || c.toNat = 0x1680 ||
  (0x2000 ≤ c.toNat && c.toNat ≤ 0x200A) ||
  c.toNat = 0x2028 || c.toNat = 0x2029 || c.toNat = 0x202F ||
  c.toNat = 0x205F || c.toNat = 0x3000

/-- Rust `str::trim`. -/
def rustTrim (s : String) : String :=
  String.mk (((s.data.dropWhile rustIsWhitespace).reverse.dropWhile rustIsWhitespace).reverse)

/-- Does `p` occur as a contiguous substring of `l`?  Models Rust
`str::contains` with a literal pattern. -/
def listContainsSub (l p : List Char) : Bool :=
  match l with
  | [] => p.isEmpty
  | _ :: t => p.isPrefixOf l || listContainsSub t p

/-- Rust `str::contains` with a literal string pattern. -/
def strContains (s pat : String) : Bool := listContainsSub s.data pat.data

/-! ## JSON values and a standard JSON parser

`ai.rs` parses each SSE `data:` payload with `serde_json::from_str` and then
navigates `choices[0].delta.content`.  We model `serde_json` by a standard
JSON parser (fuelled, total); duplicate object keys keep the last value, as
in `serde_json`'s map. -/

inductive Json where
  | jnull : Json
  | jbool : Bool → Json
  | jnum : String → Json
  | jstr : String → Json
  | jarr : List Json → Json
  | jobj : List (String × Json) → Json

/-- JSON insignificant whitespace. -/
def jsonWs (c : Char) : Bool := c = ' ' || c = '\t' || c = '\n' || c = '\r'

/-- Value of a hex digit. -/
def hexVal (c : Char) : Option Nat :=
  if '0' ≤ c ∧ c ≤ '9' then some (c.toNat - 48)
  else if 'a' ≤ c ∧ c ≤ 'f' then some (c.toNat - 87)
  else if 'A' ≤ c ∧ c ≤ 'F' then some (c.toNat - 55)
  else none

/-- Parse exactly four hex digits. -/
def parseHex4 : List Char → Option (Nat × List Char)
  | c1 :: c2 :: c3 :: c4 :: rest =>
    match hexVal c1, hexVal c2, hexVal c3, hexVal c4 with
    | some h1, some h2, some h3, some h4 => some (h1 * 4096 + h2 * 256 + h3 * 16 + h4, rest)
    | _, _, _, _ => none
  | _ => none

/-- Parse the body of a JSON string after the opening quote; yields the
decoded characters and the input after the closing quote. -/
def parseJStr : Nat → List Char → Option (List Char × List Char)
  | 0, _ => none
  | _, [] => none
  | f + 1, c :: rest =>
    if c = '"' then some ([], rest)
    else if c = '\\' then
      match rest with
      | [] => none
      | e :: rest2 =>
        if e = '"' ∨ e = '\\' ∨ e = '/' then
          (parseJStr f rest2).map (fun p => (e :: p.1, p.2))
        else if e = 'b' then (parseJStr f rest2).map (fun p => ('\x08' :: p.1, p.2))
        else if e = 'f' then (parseJStr f rest2).map (fun p => ('\x0c' :: p.1, p.2))
        else if e = 'n' then (parseJStr f rest2).map (fun p => ('\n' :: p.1, p.2))
        else if e = 'r' then (parseJStr f rest2).map (fun p => ('\r' :: p.1, p.2))
        else if e = 't' then (parseJStr f rest2).map (fun p => ('\t' :: p.1, p.2))
        else if e = 'u' then
          match parseHex4 rest2 with
          | none => none
          | some (n, rest3) =>
            if 0xD800 ≤ n ∧ n ≤ 0xDBFF then
              -- high surrogate: require a following \uXXXX low surrogate
              match rest3 with
              | '\\' :: 'u' :: rest4 =>
                match parseHex4 rest4 with
                | some (lo, rest5) =>
                  if 0xDC00 ≤ lo ∧ lo ≤ 0xDFFF then
                    (parseJStr f rest5).map
                      (fun p => (Char.ofNat (0x10000 + (n - 0xD800) * 0x400 + (lo - 0xDC00)) :: p.1, p.2))
                  else none
                | none => none
              | _ => none
            else if 0xDC00 ≤ n ∧ n ≤ 0xDFFF then none
            else (parseJStr f rest3).map (fun p => (Char.ofNat n :: p.1, p.2))
        else none
    else if c.toNat < 0x20 then none
    else (parseJStr f rest).map (fun p => (c :: p.1, p.2))

/-- Longest digit run. -/
def takeDigits (s : List Char) : List Char × List Char :=
  (s.takeWhile Char.isDigit, s.dropWhile Char.isDigit)

/-- Optional fraction part of a JSON number. -/
def parseJFrac : List Char → Option (List Char × List Char)
  | '.' :: r =>
    let p := takeDigits r
    if p.1.isEmpty then none else some ('.' :: p.1, p.2)
  | s => some ([], s)

/-- Optional exponent part of a JSON number. -/
def parseJExp : List Char → Option (List Char × List Char)
  | c :: r =>
    if c = 'e' ∨ c = 'E' then
      match r with
      | s :: r2 =>
        if s = '+' ∨ s = '-' then
          let p := takeDigits r2
          if p.1.isEmpty then none else some (c :: s :: p.1, p.2)
        else
          let p := takeDigits (s :: r2)
          if p.1.isEmpty then none else some (c :: p.1, p.2)
      | [] => none
    else some ([], c :: r)
  | [] => some ([], [])

/-- Parse a JSON number (raw text kept). -/
def parseJNum (s : List Char) : Option (List Char × List Char) :=
  let sp : List Char × List Char := match s with | '-' :: r => (['-'], r) | _ => ([], s)
  match sp.2 with
  | [] => none
  | c :: r =>
    if c = '0' then
      match parseJFrac r with
      | none => none
      | some (fr, r2) =>
        match parseJExp r2 with
        | none => none
        | some (ex, r3) => some (sp.1 ++ ['0'] ++ fr ++ ex, r3)
    else if c.isDigit then
      let p := takeDigits r
      match parseJFrac p.2 with
      | none => none
      | some (fr, r2) =>
        match parseJExp r2 with
        | none => none
        | some (ex, r3) => some (sp.1 ++ (c :: p.1) ++ fr ++ ex, r3)
    else none

mutual

/-- Parse one JSON value. -/
def parseJVal : Nat → List Char → Option (Json × List Char)
  | 0, _ => none
  | f + 1, s0 =>
    let s := s0.dropWhile jsonWs
    match s with
    | [] => none
    | c :: rest =>
      if c = 'n' then
        if ['u', 'l', 'l'].isPrefixOf rest then some (.jnull, rest.drop 3) else none
      else if c = 't' then
        if ['r', 'u', 'e'].isPrefixOf rest then some (.jbool true, rest.drop 3) else none
      else if c = 'f' then
        if ['a', 'l', 's', 'e'].isPrefixOf rest then some (.jbool false, rest.drop 4) else none
      else if c = '"' then
        (parseJStr f rest).map (fun p => (.jstr (String.mk p.1), p.2))
      else if c = '[' then
        let r1 := rest.dropWhile jsonWs
        match r1 with
        | ']' :: r2 => some (.jarr [], r2)
        | _ => (parseJArrElems f r1).map (fun p => (.jarr p.1, p.2))
      else if c = '\x7b' then
        let r1 := rest.dropWhile jsonWs
        match r1 with
        | '\x7d' :: r2 => some (.jobj [], r2)
        | _ => (parseJObjFields f r1).map (fun p => (.jobj p.1, p.2))
      else
        (parseJNum s).map (fun p => (.jnum (String.mk p.1), p.2))
termination_by f _ => f

/-- Parse the elements of a JSON array after the opening bracket. -/
def parseJArrElems : Nat → List Char → Option (List Json × List Char)
  | 0, _ => none
  | f + 1, s =>
    match parseJVal f s with
    | none => none
    | some (v, r0) =>
      let r := r0.dropWhile jsonWs
      match r with
      | ',' :: r2 => (parseJArrElems f r2).map (fun p => (v :: p.1, p.2))
      | ']' :: r2 => some ([v], r2)
      | _ => none
termination_by f _ => f

/-- Parse the fields of a JSON object after the opening brace. -/
def parseJObjFields : Nat → List Char → Option (List (String × Json) × List Char)
  | 0, _ => none
  | f + 1, s0 =>
    let s := s0.dropWhile jsonWs
    match s with
    | '"' :: rest =>
      match parseJStr f rest with
      | none => none
      | some (key, r0) =>
        let r := r0.dropWhile jsonWs
        match r with
        | ':' :: r2 =>
          match parseJVal f r2 with
          | none => none
          | some (v, r3) =>
            let r4 := r3.dropWhile jsonWs
            match r4 with
            | ',' :: r5 => (parseJObjFields f r5).map (fun p => ((String.mk key, v) :: p.1, p.2))
            | '\x7d' :: r5 => some ([(String.mk key, v)], r5)
            | _ => none
        | _ => none
    | _ => none
termination_by f _ => f

end

/-- Model of `serde_json::from_str::<serde_json::Value>` on a complete
input: one JSON value, with only whitespace allowed around it. -/
def parseJsonStr (s : String) : Option Json :=
  match parseJVal (s.data.length * 3 + 8) s.data with
  | some (v, rest) => if (rest.dropWhile jsonWs).isEmpty then some v else none
  | none => none

/-- serde_json `Value::get` with a string key (objects only; duplicate keys
keep the last value, as in serde_json's map). -/
def jsonGetKey : Json → String → Option Json
  | .jobj fs, k => ((fs.filter (fun kv => kv.1 = k)).getLast?).map (fun kv => kv.2)
  | _, _ => none

/-- serde_json `Value::get` with an integer index (arrays only). -/
def jsonGetIdx : Json → Nat → Option Json
  | .jarr xs, i => xs.get? i
  | _, _ => none

/-- serde_json `Value::as_str`. -/
def jsonAsStr : Json → Option String
  | .jstr s => some s
  | _ => none

/-! ## The SSE parsing loop of `stream_analysis` (ai.rs:76-112)

The Rust loop, byte for byte:

  while let Some(idx) = buffer.find of newline:
      line   := buffer[..idx]
      buffer.remove(0)                -- drops the FIRST CHAR of the buffer
      buffer := buffer[idx+1..]       -- slices the ALREADY SHRUNK buffer
      ... process `line`, possibly emitting an `ai-analysis` chunk event

`String::remove(0)` shifts the buffer left by the width of its first char,
so the subsequent byte slice `buffer[idx+1..]` addresses the shrunk buffer:
it drops one extra char after the newline, and it panics (byte index out of
bounds) whenever `idx+1` exceeds the new length — in particular whenever the
newline was the last byte of the buffer. -/

/-- Extraction of `choices[0].delta.content` from one complete SSE line
(ai.rs:92-108): trim, require the `data: ` prefix, drop it, ignore the
`[DONE]` sentinel, parse JSON, navigate to the delta content.  Returns the
chunk that would be emitted as an `ai-analysis` event, if any. -/
def sseLineChunk (line : String) : Option String :=
  let trimmed := rustTrim line
  if trimmed.startsWith "data: " then
    let data := trimmed.drop 6
    if data = "[DONE]" then none
    else
      match parseJsonStr data with
      | some j =>
        match (((jsonGetKey j "choices").bind (fun c => jsonGetIdx c 0)).bind
            (fun c => jsonGetKey c "delta")).bind (fun d => jsonGetKey d "content") with
        | some v => jsonAsStr v
        | none => none
      | none => none
  else none

/-- Byte index of the first newline in the buffer (Rust `str::find('\n')`;
a newline is a single UTF-8 byte, so byte search equals this byte scan). -/
def findNl (buffer : List Nat) : Option Nat := buffer.findIdx? (fun b => b = 10)

/-- One run of the inner `while let Some(idx) = buffer.find('\n')` loop of
ai.rs:86-111, draining every complete line from `buffer`.  `events` is the
list of `ai-analysis` chunks emitted so far.  Returns the emitted chunks and
`some` remaining buffer, or `none` for the remaining buffer if the loop
panics (the byte slice `buffer[idx+1..]` taken after `buffer.remove(0)` is
out of bounds or not on a char boundary). -/
inductive SseStep where
  /-- `buffer.find('\n')` returned `None`: the while loop exits. -/
  | exitLoop
  /-- the byte slice `buffer[idx+1..]` panics, before the extracted line is
  processed. -/
  | panic (line : List Nat)
  /-- the iteration extracted `line` and shrank the buffer to `rest`. -/
  | next (line : List Nat) (rest : List Nat)

/-- The buffer manipulation of one iteration of the while loop
(ai.rs:86-90): find the newline, extract the line before it, `remove(0)`
(drop the first char), then take the byte slice `buffer[idx+1..]` of the
shrunk buffer — a panic when `idx+1` exceeds its length or falls inside a
char. -/
def sseStep : List Nat → SseStep
  | [] => .exitLoop
  | b :: bs =>
    match findNl (b :: bs) with
    | none => .exitLoop
    | some idx =>
      let line := (b :: bs).take idx
      -- buffer.remove(0): drop the first char (ai.rs:88)
      let buffer1 := (b :: bs).drop (rustCharWidth b)
      -- buffer = buffer[idx+1..] (ai.rs:90)
      if idx + 1 > buffer1.length then .panic line
      else if (buffer1.get? (idx + 1)).any (fun x => 0x80 ≤ x && x < 0xC0) then .panic line
      else .next line (buffer1.drop (idx + 1))

/-- The drain loop (ai.rs:86-111), fuelled: iterate `sseStep`, processing
each completed iteration's line (possibly emitting a chunk event).  A panic
aborts with `none` as the remaining buffer; the events accumulated so far
are kept.  Each completed iteration strictly shrinks the buffer, so fuel
equal to the buffer length is always sufficient; `sseDrainF_fuel_irrelevant`
below proves the result does not depend on the fuel from that point on.
`sseDrainBody` is one unrolling of the loop, with the continuation made
explicit. -/
def sseDrainBody (recur : List Nat → List String → List String × Option (List Nat))
    (buffer : List Nat) (events : List String) : List String × Option (List Nat) :=
  match sseStep buffer with
  | .exitLoop => (events, some buffer)
  | .panic _line => (events, none)
  | .next line rest =>
    match sseLineChunk (utf8Decode line) with
    | some c => recur rest (events ++ [c])
    | none => recur rest events

/-- Iterate `sseDrainBody` with the given fuel. -/
def sseDrainF : Nat → List Nat → List String → List String × Option (List Nat)
  | 0, buffer, events => (events, some buffer)
  | f + 1, buffer, events => sseDrainBody (sseDrainF f) buffer events

/-- Drain all complete lines from the buffer. -/
def sseDrain (buffer : List Nat) (events : List String) : List String × Option (List Nat) :=
  sseDrainF buffer.length buffer events

/-- Feed one stream chunk (already decoded by `String::from_utf8_lossy`;
the chunks of interest are valid UTF-8, on which the lossy decoding is the
identity) into the buffer and drain complete lines (ai.rs:79-111). -/
def sseFeedChunk (buffer : List Nat) (events : List String) (chunk : String) :
    List String × Option (List Nat) :=
  sseDrain (buffer ++ strBytes chunk) events

/-- Run the SSE read loop of `stream_analysis` over a whole stream of
chunks.  Returns the `ai-analysis` chunk payloads emitted, in order, and
whether the loop reached the end of the stream without panicking — exactly
when the trailing `ai-analysis-status` event with status `done`
(ai.rs:114-117) is emitted. -/
def runSseAux : List String → List Nat → List String → List String × Bool
  | [], _, events => (events, true)
  | c :: cs, buffer, events =>
    match sseFeedChunk buffer events c with
    | (evs, none) => (evs, false)
    | (evs, some b) => runSseAux cs b evs

/-- The chunk events and the done status of `stream_analysis`'s read loop on
a successful response delivered as the given chunks. -/
def runSse (chunks : List String) : List String × Bool := runSseAux chunks [] []

/-! ## Endpoint resolution of `stream_analysis` (ai.rs:49-55) -/

/-- Rust `str::trim_end_matches('/')`: strip all trailing slashes. -/
def trimEndSlashes (s : String) : String :=
  String.mk ((s.data.reverse.dropWhile (fun c => c = '/')).reverse)

/-- Rust `str::ends_with("/chat/completions")`. -/
def endsWithChatCompletions (s : String) : Bool :=
  "/chat/completions".data.reverse.isPrefixOf s.data.reverse

/-- The effective POST target computed by `stream_analysis` from the
configured `api_base` (ai.rs:50-55). -/
def resolveChatUrl (api_base : String) : String :=
  let base := trimEndSlashes api_base
  if endsWithChatCompletions base then base else base ++ "/chat/completions"

/-! ## The browser worker `fetch_via_window` (browser_spider.rs:11-133)

The function is modelled by its control flow over the outcomes of its
effectful steps: whether the target URL parses, whether the webview builds,
and which arm of the final `tokio::select!` fires.  The model records
whether the `spider_response` listener was unregistered (`app.unlisten`) and
whether the final cleanup that destroys the `spider_worker` webview
(browser_spider.rs:128-130) ran before the function returned. -/

/-- Outcome of the `tokio::select!` at browser_spider.rs:116-125. -/
inductive SelectOutcome where
  | payload (html : String)
  | channelClosed
  | timedOut
deriving DecidableEq

/-- Observable result of one `fetch_via_window` call: whether the listener
was unregistered, whether the worker-webview cleanup ran, and the returned
value. -/
structure FvwTrace where
  unlistened : Bool
  workerDestroyed : Bool
  result : Except String String
deriving DecidableEq

/-- Control-flow model of `fetch_via_window`.  The listener is registered at
browser_spider.rs:32, before the URL parse at :107 and the build at :113;
each `?` there returns without unlistening.  The select arms at :117-124
unlisten; the `?` at :119 (channel closed) returns before the cleanup at
:128 that destroys the webview. -/
def fetch_via_window (urlOk : Bool) (buildOk : Bool) (sel : SelectOutcome) : FvwTrace :=
  if urlOk = false then
    -- `url.parse().map_err(..)?` at :107: early return, no unlisten, no cleanup
    { unlistened := false, workerDestroyed := false, result := .error "invalid url" }
  else if buildOk = false then
    -- `window_builder.build().map_err(..)?` at :113: early return,
    -- no unlisten, no cleanup
    { unlistened := false, workerDestroyed := false,
      result := .error "Failed to create window: build error" }
  else
    match sel with
    | .payload h =>
      -- rx arm: unlisten at :118, `?` at :119 succeeds, cleanup at :128 runs
      { unlistened := true, workerDestroyed := true, result := .ok h }
    | .channelClosed =>
      -- rx arm: unlisten at :118, then `?` at :119 returns BEFORE the
      -- cleanup at :128 — the webview is left alive
      { unlistened := true, workerDestroyed := false, result := .error "Channel closed" }
    | .timedOut =>
      -- timeout arm: unlisten at :122, arm yields Err, cleanup at :128 runs
      { unlistened := true, workerDestroyed := true,
        result := .error "Timeout waiting for spider" }

/-! ## Platform-Q adapter (spiders/qidian.rs)

HTML parsing (the `scraper` crate) is external: a fetched page is modelled
by the results of the fixed selector queries the adapter performs on it.
The browser worker and the HTTP client are oracles from URL to result. -/

/-- Shared metadata record (`NovelMetadata`, declared in spiders/fanqie.rs
and re-exported by qidian.rs:39; its five fields are exactly those
constructed at qidian.rs:204-210 and 263-269, matching the spec's data
model). -/
structure NovelMetadata where
  title : String
  url : String
  tags : List String
  word_count : String
  description : String
deriving DecidableEq

/-- A browser-rendered Platform-Q book page, as seen through the selector
queries of `fetch_novel_metadata` (qidian.rs:134-202): each field is the
text of the first match of the given selector (`None` when nothing
matches). -/
structure QPage where
  /-- text of the first match of `h1, #bookName` (qidian.rs:137-139) -/
  h1BookName : Option String
  /-- text of the first `title` element (qidian.rs:142-148) -/
  titleTag : Option String
  /-- text of the first `#book-intro-detail` (qidian.rs:160-164) -/
  introDetail : Option String
  /-- text of the first `.book-intro, .intro` (qidian.rs:161-168) -/
  introFallback : Option String
  /-- `content` attribute of the first `meta[name='description']`
  (qidian.rs:170-173) -/
  metaDescription : Option String
  /-- texts of all `.book-attribute a` matches, in DOM order
  (qidian.rs:180-184) -/
  attrTags : List String
  /-- texts of all `.intro-honor-label .all-label a, .all-label a` matches,
  in DOM order (qidian.rs:188-192) -/
  labelTags : List String
  /-- text of the first `.count em` (qidian.rs:199-202) -/
  countEm : Option String
deriving DecidableEq

/-- A Platform-Q mobile page, as seen through the selector queries of
`fetch_mobile_metadata` (qidian.rs:235-261). -/
inductive MobileDescElem where
  /-- the first `.book-intro, .intro, meta[name='description']` match is a
  `meta` element with the given `content` attribute (qidian.rs:252-256) -/
  | metaElem (content : Option String)
  /-- the first match is a text element (qidian.rs:257-259) -/
  | textElem (text : String)
deriving DecidableEq

/-- Selector view of the mobile fallback page. -/
structure MobilePage where
  /-- text of the first match of `h1, .book-title, .detail h2`
  (qidian.rs:238-242) -/
  titleSel : Option String
  /-- the first description match (qidian.rs:247-250) -/
  descElem : Option MobileDescElem
deriving DecidableEq

/-- Book-id extraction: the capture group of the first match of the regex
`book/([0-9]+)` (qidian.rs:219 also allows an optional trailing `/`, which
does not change the captured digits).  The regex engine matches at the
earliest position where `book/` is immediately followed by at least one
digit, and captures the maximal digit run. -/
def extractBookId : List Char → Option (List Char)
  | [] => none
  | c :: rest =>
    let here := c :: rest
    if "book/".data.isPrefixOf here then
      let after := here.drop 5
      let ds := after.takeWhile Char.isDigit
      if ds.isEmpty then extractBookId rest else some ds
    else extractBookId rest

/-- Insertion step of a stable insertion sort: `x` (which originates later
in the input than every element of the accumulator) moves left past the
elements strictly greater than it. -/
def insertByCmp (cmp : α → α → Ordering) (x : α) : List α → List α
  | [] => [x]
  | y :: ys => if cmp x y = Ordering.gt then y :: insertByCmp cmp x ys else x :: y :: ys

/-- Stable sort by a comparator, modelling Rust's stable `sort`/`sort_by`. -/
def sortByCmp (cmp : α → α → Ordering) : List α → List α
  | [] => []
  | x :: xs => insertByCmp cmp x (sortByCmp cmp xs)

/-- Rust `Vec::dedup`: collapse consecutive equal elements. -/
def dedupConsec [DecidableEq α] : List α → List α
  | [] => []
  | [x] => [x]
  | x :: y :: rest => if x = y then dedupConsec (y :: rest) else x :: dedupConsec (y :: rest)

/-- Rust `String` comparison (byte lexicographic; on UTF-8 this equals
code-point lexicographic order, which is Lean's `compare` on `String`). -/
def strCmp (a b : String) : Ordering := compare a b

/-- `fetch_mobile_metadata` (qidian.rs:217-270).  `httpGet` is the HTTP
client: for a URL, the mobile page obtained by `client.get(..).send()` +
`resp.text()` + `Html::parse_document`, or the transport error. -/
def fetch_mobile_metadata (url : String)
    (httpGet : String → Except String MobilePage) : Except String NovelMetadata :=
  match extractBookId url.data with
  | none => .error "无法从 URL 提取 bookId"
  | some bookId =>
    let mobile_url := "https://m.qidian.com/book/" ++ String.mk bookId
    match httpGet mobile_url with
    | .error e => .error ("移动端请求失败: " ++ e)
    | .ok page =>
      let title :=
        match (page.titleSel.map rustTrim).filter (fun s => s ≠ "") with
        | some t => t
        | none => "Unknown Title"
      let description :=
        match page.descElem with
        | some (.metaElem content) => content.getD ""
        | some (.textElem text) => rustTrim text
        | none => ""
      .ok { title := title, url := mobile_url, tags := [],
            word_count := "未知", description := description }

/-- Title resolution of `fetch_novel_metadata` (qidian.rs:137-150): first
match of `h1, #bookName`, else the first underscore-separated segment of the
`title` element, else a fixed fallback. -/
def qPageTitle (doc : QPage) : String :=
  match doc.h1BookName with
  | some t => t
  | none =>
    match doc.titleTag with
    | some full =>
      -- full_title.split('_').next().unwrap_or(&full_title)
      match full.splitOn "_" with
      | [] => full
      | seg :: _ => seg
    | none => "Unknown Title"

/-- `fetch_novel_metadata` (qidian.rs:107-214).  `browser` is the result of
`fetch_via_window` on the novel URL (already parsed into the selector view);
`httpGet` is the HTTP client used by the mobile fallback.  The mobile
fallback is invoked only in the `Err` arm of the browser-spider match
(qidian.rs:117-121); a WAF-marker title returns an error directly
(qidian.rs:153-156). -/
def fetch_novel_metadata (url : String) (browser : Except String QPage)
    (httpGet : String → Except String MobilePage) : Except String NovelMetadata :=
  match browser with
  | .error _ => fetch_mobile_metadata url httpGet
  | .ok doc =>
    let title := qPageTitle doc
    if strContains title "Just a moment" || strContains title "Security checking" then
      .error "Browser Spider still caught by WAF"
    else
      let description :=
        match doc.introDetail with
        | some t => rustTrim t
        | none =>
          match doc.introFallback with
          | some t => rustTrim t
          | none =>
            match doc.metaDescription with
            | some c => c
            | none => ""
      let tags0 :=
        (doc.attrTags.map rustTrim).filter (fun t => t ≠ "") ++
        (doc.labelTags.map rustTrim).filter (fun t => t ≠ "")
      let tags := dedupConsec (sortByCmp strCmp tags0)
      let word_count := doc.countEm.getD "未知"
      .ok { title := title, url := url, tags := tags,
            word_count := word_count, description := description }

/-- URL normalisation of `fetch_rank_list` (qidian.rs:77-88): a `//` link
gets the scheme, a `/` link is resolved against the mobile host when the
source URL contains the mobile subdomain and the desktop host otherwise. -/
def normalizeRankHref (url href : String) : String :=
  if href.startsWith "//" then "https:" ++ href
  else if href.startsWith "/" then
    if strContains url "m.qidian.com" then "https://m.qidian.com" ++ href
    else "https://www.qidian.com" ++ href
  else href

/-- The collection loop of `fetch_rank_list` (qidian.rs:73-95) over the
`href` attributes of the matching anchors in DOM order (a missing attribute
is `unwrap_or_default`, i.e. the empty string).  `seen` is the `HashSet`,
`links` the output `Vec`. -/
def rankLoop (url : String) : List String → List String → List String → List String
  | [], _seen, links => links
  | href :: rest, seen, links =>
    if href = "" then rankLoop url rest seen links
    else
      let full_url := normalizeRankHref url href
      if strContains full_url "/book/" && !(seen.contains full_url) then
        rankLoop url rest (seen ++ [full_url]) (links ++ [full_url])
      else rankLoop url rest seen links

/-- `fetch_rank_list` (qidian.rs:41-102) after the browser fetch: the links
collected from the anchors' hrefs, in DOM order, never sorted
(qidian.rs:97). -/
def fetch_rank_list (url : String) (hrefs : List String) : List String :=
  rankLoop url hrefs [] []

/-- Specification-side normalised candidate list: the non-empty hrefs, in
DOM order, normalised, restricted to book URLs. -/
def rankCandidates (url : String) (hrefs : List String) : List String :=
  ((hrefs.filter (fun h => h ≠ "")).map (normalizeRankHref url)).filter
    (fun u => strContains u "/book/")

/-- Specification-side first-occurrence deduplication: keep an element iff
it was not already kept. -/
def dedupFirstAux (seen : List String) : List String → List String
  | [] => []
  | x :: xs =>
    if seen.contains x then dedupFirstAux seen xs
    else x :: dedupFirstAux (seen ++ [x]) xs

/-- Deduplicate keeping the first occurrence of each element, preserving
order. -/
def dedupFirst (l : List String) : List String := dedupFirstAux [] l

/-- URL normalisation of `fetch_chapter_list` (qidian.rs:335-341): like the
rank-list one but always resolving `/` links against the mobile host. -/
def normalizeChapterHref (href : String) : String :=
  if href.startsWith "//" then "https:" ++ href
  else if href.startsWith "/" then "https://m.qidian.com" ++ href
  else href

/-- The collection loop of `fetch_chapter_list` (qidian.rs:329-349) over the
matching anchors, given as (text, href-attribute) pairs in DOM order. -/
def chapterLoop : List (String × String) → List (String × String)
  | [] => []
  | (text, href) :: rest =>
    let title := rustTrim text
    if title ≠ "" && href ≠ "" && !(strContains href "javascript") then
      let full_url := normalizeChapterHref href
      if strContains full_url "/chapter/" || strContains full_url "/read/" then
        (title, full_url) :: chapterLoop rest
      else chapterLoop rest
    else chapterLoop rest

/-- `fetch_chapter_list` (qidian.rs:273-367).  `browser` maps the catalog
URL to the selector matches (`.y-list__item a, a[class*='chapterItem']` as
(text, href) pairs in DOM order) of the rendered page, or to the
browser-spider error.  An empty parsed list is a hard error
(qidian.rs:351-363; the Err message's debug-path suffix is omitted as
environment-dependent). -/
def fetch_chapter_list (url : String)
    (browser : String → Except String (List (String × String))) :
    Except String (List (String × String)) :=
  match extractBookId url.data with
  | none => .error "Failed to extract book ID for catalog"
  | some bookId =>
    let catalog_url := "https://m.qidian.com/book/" ++ String.mk bookId ++ "/catalog"
    match browser catalog_url with
    | .error e => .error e
    | .ok anchors =>
      let chapters := chapterLoop anchors
      if chapters.isEmpty then .error "No chapters found in catalog." else .ok chapters

/-! ## Decimal formatting

`process_novel_download` names chapter files with `format!("{:02}.txt", i+1)`
(lib.rs:454).  `{:02}` is the decimal rendering of the number, left-padded
with `0` to width 2. -/

/-- Decimal digit character. -/
def natDigitChar (d : Nat) : Char := Char.ofNat (48 + d)

/-- Decimal digits of `n`, most significant first (fuelled; `n + 1` fuel is
always sufficient). -/
def natDigitsAux : Nat → Nat → List Char
  | 0, _ => []
  | f + 1, n =>
    if n < 10 then [natDigitChar n]
    else natDigitsAux f (n / 10) ++ [natDigitChar (n % 10)]

/-- Decimal digits of a natural number, most significant first. -/
def natDigits (n : Nat) : List Char := natDigitsAux (n + 1) n

/-- Rust `format!("{:02}", n)`: decimal, zero-padded to width two. -/
def fmt02 (n : Nat) : String :=
  if n < 10 then String.mk ('0' :: natDigits n) else String.mk (natDigits n)

/-- Chapter file name for the chapter at 0-based index `i`
(lib.rs:454). -/
def chapterFileName (i : Nat) : String := fmt02 (i + 1) ++ ".txt"

/-! ## The per-novel pipeline `process_novel_download` (lib.rs:334-514)

The environment collects the results of the effectful adapter calls; the
state tracks the chapter files present in the novel directory (file names,
in creation order after the pre-existing ones), the `download-progress`
events emitted, the number of `download_chapter` invocations, and the two
counters. -/

/-- A `download-progress` payload (`ProgressPayload`, lib.rs:160-164). -/
structure Progress where
  message : String
  status : String
deriving DecidableEq

/-- Pipeline state. -/
structure PipeState where
  /-- chapter files present in the novel directory (pre-existing ones first,
  then the files written by the run, in write order) -/
  files : List String
  /-- `download-progress` events emitted so far, in order -/
  events : List Progress
  /-- number of `download_chapter` calls performed -/
  downloadCalls : Nat
  downloadedCount : Nat
  skippedCount : Nat
  /-- whether `info.json` has been written -/
  infoWritten : Bool
deriving DecidableEq

/-- Results of the effectful calls the pipeline makes. -/
structure PipeEnv where
  /-- result of the platform `fetch_novel_metadata` dispatch
  (lib.rs:355-363) -/
  metadata : Except String NovelMetadata
  /-- Platform-F chapter list: transport error of the catalog GET
  (lib.rs:400), or the parsed `(title, href)` pairs (lib.rs:401-412) -/
  fanqieChapters : Except String (List (String × String))
  /-- Platform-Q `fetch_chapter_list` result (lib.rs:416) -/
  qidianChapters : Except String (List (String × String))
  /-- result of the `download_chapter` dispatch (lib.rs:489-493) for a
  chapter URL at a given attempt number (0-based within the chapter's retry
  loop) -/
  download : String → Nat → Except String (String × String)

/-- Title sanitisation (lib.rs:380). -/
def safeTitle (t : String) : String := (t.replace "/" "_").replace "\\" "_"

/-- The retry loop of lib.rs:484-503: up to `fuel` (= 3) attempts starting
at attempt number `a`; returns the number of `download_chapter` calls made
and the content of the first successful attempt, if any. -/
def tryAttempts (dl : String → Nat → Except String (String × String)) (u : String) :
    Nat → Nat → Nat × Option String
  | _, 0 => (0, none)
  | a, f + 1 =>
    match dl u a with
    | .ok r => (1, some r.2)
    | .error _ =>
      let p := tryAttempts dl u (a + 1) f
      (p.1 + 1, p.2)

/-- The chapter URL used for the download (lib.rs:478-482). -/
def chapterUrl (platform : String) (href : String) : String :=
  if platform = "fanqie" then "https://fanqienovel.com" ++ href else href

/-- The per-chapter loop of lib.rs:453-505 over the batch, starting at
0-based index `i`. -/
def runChapters (dl : String → Nat → Except String (String × String))
    (isBatch : Bool) (safe_title : String) (platform : String) :
    List (String × String) → Nat → PipeState → PipeState
  | [], _, st => st
  | (title, href) :: rest, i, st =>
    let filename := chapterFileName i
    if st.files.contains filename then
      -- dedup: file exists, emit skipped (non-batch) and continue
      -- (lib.rs:458-469)
      let ev := if isBatch then [] else
        [⟨"跳过已存在章节 [" ++ safe_title ++ "] - " ++ title, "skipped"⟩]
      runChapters dl isBatch safe_title platform rest (i + 1)
        { st with events := st.events ++ ev, skippedCount := st.skippedCount + 1 }
    else
      let ev := if isBatch then [] else
        [⟨"下载 [" ++ safe_title ++ "] - " ++ title, "running"⟩]
      let u := chapterUrl platform href
      let p := tryAttempts dl u 0 3
      match p.2 with
      | some _content =>
        -- success within 3 attempts: write the chapter file (lib.rs:495-499)
        runChapters dl isBatch safe_title platform rest (i + 1)
          { st with events := st.events ++ ev,
                    files := st.files ++ [filename],
                    downloadCalls := st.downloadCalls + p.1,
                    downloadedCount := st.downloadedCount + 1 }
      | none =>
        -- all 3 attempts failed: no file for this chapter, move on
        runChapters dl isBatch safe_title platform rest (i + 1)
          { st with events := st.events ++ ev,
                    downloadCalls := st.downloadCalls + p.1 }

/-- The chapters-to-download batch (lib.rs:432-436): Platform-F skips the
first entry, then both take `chapter_count`. -/
def batchOf (platform : String) (chapters : List (String × String)) (chapter_count : Nat) :
    List (String × String) :=
  if platform = "fanqie" then (chapters.drop 1).take chapter_count
  else chapters.take chapter_count

/-- `process_novel_download` (lib.rs:334-514): given the environment, the
novel URL, the requested chapter count, the batch flag, the platform tag and
the pre-existing chapter files, returns the final state and the function's
return value. -/
def process_novel_download (env : PipeEnv) (url : String) (chapter_count : Nat)
    (isBatch : Bool) (platform : String) (initFiles : List String) :
    PipeState × Except String String :=
  -- 1. metadata (lib.rs:347-377)
  let st0 : PipeState :=
    { files := initFiles,
      events := [⟨"正在获取元数据: " ++ url, "running"⟩],
      downloadCalls := 0, downloadedCount := 0, skippedCount := 0, infoWritten := false }
  match env.metadata with
  | .error e =>
    let msg := "获取元数据失败: " ++ e
    ({ st0 with events := st0.events ++ [⟨msg, "error"⟩] }, .error msg)
  | .ok metadata =>
    let safe_title := safeTitle metadata.title
    -- info.json written (lib.rs:388-389)
    let st1 : PipeState :=
      { st0 with infoWritten := true,
                 events := st0.events ++
                   [⟨"正在获取章节列表 [" ++ safe_title ++ "]...", "running"⟩] }
    -- 2. chapter list dispatch (lib.rs:398-429)
    let listed : Except (PipeState × String) (PipeState × List (String × String)) :=
      if platform = "fanqie" then
        match env.fanqieChapters with
        | .error e => .error (st1, e)  -- `?` at lib.rs:400: no event emitted
        | .ok chs => .ok (st1, chs)
      else if platform = "qidian" then
        match env.qidianChapters with
        | .error e =>
          let msg := "获取章节列表失败: " ++ e
          .error ({ st1 with events := st1.events ++ [⟨msg, "error"⟩] }, msg)
        | .ok chs => .ok (st1, chs)
      else .error (st1, "Unknown platform for chapter list: " ++ platform)
    match listed with
    | .error p => (p.1, .error p.2)
    | .ok (st2, chapters) =>
      let batch := batchOf platform chapters chapter_count
      let st3 : PipeState :=
        { st2 with events := st2.events ++
            [⟨"准备下载 " ++ String.mk (natDigits batch.length) ++ " 章 (总请求: " ++
              String.mk (natDigits chapter_count) ++ ")...", "running"⟩] }
      let st4 := runChapters env.download isBatch safe_title platform batch 0 st3
      (st4, .ok safe_title)

/-- The non-batch caller `start_download` (lib.rs:546-563): on success emit
a `completed` event, on failure an `error` event. -/
def start_download_run (env : PipeEnv) (url : String) (chapter_count : Nat)
    (platform : String) (initFiles : List String) : PipeState :=
  let r := process_novel_download env url chapter_count false platform initFiles
  match r.2 with
  | .ok title =>
    { r.1 with events := r.1.events ++ [⟨"《" ++ title ++ "》下载完成!", "completed"⟩] }
  | .error e =>
    { r.1 with events := r.1.events ++ [⟨"Error: " ++ e, "error"⟩] }

/-! ## The file tree service `get_file_tree` (lib.rs:675-727) -/

/-- A directory entry on disk, as `read_dir` and the `is_dir`/extension
checks observe it. -/
inductive FsEntry where
  | fileEntry (name : String)
  | dirEntry (name : String) (entries : List FsEntry)

/-- Output node (`FileNode`, lib.rs:667-673). -/
structure FileNode where
  name : String
  path : String
  is_dir : Bool
  children : List FileNode

/-- Rust `Path::extension` of a file name: the portion after the last `.`,
or `None` when there is no `.` or the only `.` is the leading one. -/
def rustExtension (name : String) : Option String :=
  let r := name.data.reverse
  let ext := r.takeWhile (fun c => c ≠ '.')
  if ext.length = name.data.length then none
  else if ext.length + 1 = name.data.length then none
  else some (String.mk ext.reverse)

/-- `Path::join` on the relative paths built by the walk (the initial
relative path is `""`). -/
def joinRel (rel name : String) : String :=
  if rel = "" then name else rel ++ "/" ++ name

/-- The sort comparator of lib.rs:710-716: directories first, then by name. -/
def fileNodeCmp (a b : FileNode) : Ordering :=
  if a.is_dir = b.is_dir then compare a.name b.name else compare b.is_dir a.is_dir

mutual

/-- The entry loop of `read_dir_recursive` (lib.rs:679-708): keep
directories unconditionally (recursing), keep files only with extension
`txt` or `json`. -/
def walkEntries (rel : String) : List FsEntry → List FileNode
  | [] => []
  | .fileEntry name :: rest =>
    let ext := (rustExtension name).getD ""
    if ext ≠ "txt" ∧ ext ≠ "json" then walkEntries rel rest
    else ⟨name, joinRel rel name, false, []⟩ :: walkEntries rel rest
  | .dirEntry name sub :: rest =>
    ⟨name, joinRel rel name, true, read_dir_recursive (joinRel rel name) sub⟩ ::
      walkEntries rel rest

/-- `read_dir_recursive` (lib.rs:675-718): walk one directory level, then
stable-sort it with the dirs-first-then-name comparator. -/
def read_dir_recursive (rel : String) (entries : List FsEntry) : List FileNode :=
  sortByCmp fileNodeCmp (walkEntries rel entries)

end

/-- `get_file_tree` (lib.rs:720-727): a non-existent path yields `Ok` with
no nodes; otherwise the recursive walk from the empty relative path. -/
def get_file_tree (dirExists : Bool) (entries : List FsEntry) :
    Except String (List FileNode) :=
  if dirExists = false then .ok []
  else .ok (read_dir_recursive "" entries)

/-- A concrete browser-rendered WAF challenge page (title "Just a
moment..."), used to analyse claim C3. -/
def wafQPage : QPage :=
  { h1BookName := some "Just a moment...", titleTag := none, introDetail := none,
    introFallback := none, metaDescription := none, attrTags := [], labelTags := [],
    countEm := none }

/-- A concrete mobile fallback page whose title trims to 测试小说, used to
analyse claim C3. -/
def mobileTestPage : MobilePage := { titleSel := some " 测试小说 ", descElem := none }

/-! ## Specification-side helpers for the pipeline claims -/

/-- Value of a most-significant-first digit string (used to reason about
decimal formatting). -/
def digitsVal (l : List Char) : Nat :=
  l.foldl (fun acc c => acc * 10 + (c.toNat - 48)) 0

/-- Whether some attempt among the three of the retry loop succeeds: the
download oracle returns `Ok` at attempt 0, 1 or 2. -/
def anyAttemptOk (dl : String → Nat → Except String (String × String)) (u : String) : Bool :=
  (dl u 0).isOk || (dl u 1).isOk || (dl u 2).isOk

/-- Specification-side description of the chapter files a run of the
per-chapter loop creates, in input order: the chapter at absolute index `j`
contributes `{j+1:02}.txt` iff that file is not among `files0` (the files
present when the loop starts) and some of its three download attempts
succeeds. -/
def createdFrom (dl : String → Nat → Except String (String × String))
    (platform : String) : List (String × String) → Nat → List String → List String
  | [], _, _ => []
  | (_title, href) :: rest, i, files0 =>
    if chapterFileName i ∈ files0 then createdFrom dl platform rest (i + 1) files0
    else if anyAttemptOk dl (chapterUrl platform href) then
      chapterFileName i :: createdFrom dl platform rest (i + 1) files0
    else createdFrom dl platform rest (i + 1) files0

/-- A concrete Platform-Q chapter list used to exercise the pipeline
claims. -/
def qidianTestChapters : List (String × String) :=
  [("c1", "https://m.qidian.com/chapter/1"), ("c2", "https://m.qidian.com/chapter/2")]

/-- A concrete environment whose downloads always succeed. -/
def envOkDownload : PipeEnv :=
  { metadata := .ok { title := "T/1", url := "u", tags := [], word_count := "w",
                      description := "" },
    fanqieChapters := .error "unused",
    qidianChapters := .ok qidianTestChapters,
    download := fun _ _ => .ok ("t", "body") }

/-- A concrete environment whose downloads always fail. -/
def envFailDownload : PipeEnv :=
  { metadata := .ok { title := "T", url := "u", tags := [], word_count := "w",
                      description := "" },
    fanqieChapters := .error "unused",
    qidianChapters := .ok [("c1", "https://m.qidian.com/chapter/1")],
    download := fun _ _ => .error "network down" }

/-- A concrete environment whose Platform-Q catalog page parses to zero
chapter links. -/
def envEmptyCatalog : PipeEnv :=
  { metadata := .ok { title := "T", url := "u", tags := [], word_count := "w",
                      description := "" },
    fanqieChapters := .error "unused",
    qidianChapters :=
      fetch_chapter_list "https://m.qidian.com/book/123" (fun _ => .ok []),
    download := fun _ _ => .ok ("t", "body") }

/-- The always-succeeding environment, rerun with a failing network: same
metadata and chapter list, downloads now error. -/
def envOkDownloadRerun : PipeEnv :=
  { envOkDownload with download := fun _ _ => .error "network down" }

/-! # Claims -/

/-! ## Fuel adequacy for the SSE drain loop -/

/-- A completed loop iteration strictly shrinks the buffer (it consumes the
first char and the slice start). -/
theorem sseStep_next_length {buffer line rest : List Nat}
    (h : sseStep buffer = .next line rest) : rest.length < buffer.length := by
  match buffer with
  | [] => simp [sseStep] at h
  | b :: bs =>
    simp only [sseStep] at h
    match hnl : findNl (b :: bs) with
    | none => rw [hnl] at h; simp at h
    | some idx =>
      rw [hnl] at h
      simp only at h
      split at h
      · simp at h
      split at h
      · simp at h
      cases h
      simp only [List.length_drop, List.length_cons]
      have hw : 1 ≤ rustCharWidth b := by
        unfold rustCharWidth
        repeat' split
        all_goals omega
      omega

/-- Fuel monotonicity of the drain loop, by induction on an upper bound of
the fuel. -/
theorem sseDrainF_fuel_irrelevant_aux :
    ∀ (n f : Nat) (buffer : List Nat) (events : List String),
      buffer.length ≤ f → f ≤ n →
      sseDrainF f buffer events = sseDrainF buffer.length buffer events := by
  intro n
  induction n with
  | zero =>
    intro f buffer events h1 h2
    have hf : f = 0 := Nat.le_zero.mp h2
    subst hf
    have hb : buffer = [] := List.length_eq_zero.mp (Nat.le_zero.mp h1)
    subst hb
    rfl
  | succ n ih =>
    intro f buffer events h1 h2
    match f, buffer with
    | 0, buffer =>
      have hb : buffer = [] := List.length_eq_zero.mp (Nat.le_zero.mp h1)
      subst hb
      rfl
    | f + 1, [] => rfl
    | f + 1, b :: bs =>
      have hlen : (b :: bs).length = bs.length + 1 := rfl
      have hstep1 : ∀ g ev, sseDrainF (g + 1) (b :: bs) ev =
          sseDrainBody (sseDrainF g) (b :: bs) ev := fun g ev => rfl
      rw [hlen, hstep1, hstep1]
      unfold sseDrainBody
      cases hstep : sseStep (b :: bs) with
      | exitLoop => rfl
      | panic line => rfl
      | next line rest =>
        have hlt := sseStep_next_length hstep
        rw [hlen] at hlt
        have hb1 : bs.length + 1 ≤ f + 1 := by simpa [hlen] using h1
        have key : ∀ ev : List String, sseDrainF f rest ev = sseDrainF bs.length rest ev := by
          intro ev
          rw [ih f rest ev (by omega) (by omega),
            ih bs.length rest ev (by omega) (by omega)]
        simp only [key]

/-- The fuel given to `sseDrainF` is irrelevant as soon as it is at least
the buffer length: `sseDrain`'s choice of fuel is canonical, so the fuelled
recursion is a faithful rendering of the source's `while` loop. -/
theorem sseDrainF_fuel_irrelevant (f : Nat) (buffer : List Nat) (events : List String)
    (h : buffer.length ≤ f) : sseDrainF f buffer events = sseDrain buffer events :=
  sseDrainF_fuel_irrelevant_aux f f buffer events h (Nat.le_refl f)

/-- Witness for the fuel-irrelevance lemma at a concrete buffer. -/
theorem sseDrainF_fuel_irrelevant_witness :
    ([97, 98].length ≤ 5) ∧ sseDrainF 5 [97, 98] [] = sseDrain [97, 98] [] :=
  ⟨by decide, sseDrainF_fuel_irrelevant 5 [97, 98] [] (by decide)⟩

/-! ## C1 — SSE relay scenario -/

/-- C1: the claim states that feeding `stream_analysis` the four chunks
`"data: {"choices":[{"delta":{"content":"he"`, `"llo"}}]}\n"`,
`"data: {"choices":[{"delta":{"content":" world"}}]}\n"`, `"data: [DONE]\n"`
emits the chunk events `"hello"`, `" world"` and then a `done` status.  The
code does not: while draining the first complete line the loop slices the
buffer at `idx+1` after having already removed its first char, which is out
of bounds because the newline is the buffer's last byte — the task panics
having emitted no `ai-analysis` event, and it never reaches the `done`
status emission.  This theorem evaluates the read loop at exactly that
input. -/
theorem c1_sse_relay_panics_before_any_event :
    runSse ["data: \x7b\"choices\":[\x7b\"delta\":\x7b\"content\":\"he",
            "llo\"\x7d\x7d]\x7d\n",
            "data: \x7b\"choices\":[\x7b\"delta\":\x7b\"content\":\" world\"\x7d\x7d]\x7d\n",
            "data: [DONE]\n"] = ([], false) := by
  rfl

/-! ## C2 — SSE split-invariance and totality -/

/-- C2: the claim states that the SSE parsing loop is total and emits the
same chunk sequence however the byte stream is partitioned.  It is not
total: on any delivery whose buffer ends with a newline when a line is
drained — here the single line `"a\n"`, whole or split — the slice
`buffer[idx+1..]`, taken after `buffer.remove(0)` has shrunk the buffer,
starts past its end and the loop panics.  This theorem evaluates the loop at
that failing input, delivered whole and split. -/
theorem c2_sse_loop_panics_on_line_final_newline :
    runSse ["a\n"] = ([], false) ∧ runSse ["a", "\n"] = ([], false) := by
  constructor <;> rfl

/-! ## C4 — browser worker cleanup -/

/-- C4 counterexample: the claim asserts that `fetch_via_window` unregisters
the listener and destroys the webview on every exit path, including
channel-closed and window-creation failure.  On channel-closed the `?` at
browser_spider.rs:119 returns before the webview cleanup at :128; on
window-creation failure the `?` at :113 returns before any `unlisten`. -/
theorem c4_counterexample :
    (fetch_via_window true true SelectOutcome.channelClosed).workerDestroyed = false ∧
    (fetch_via_window true false SelectOutcome.timedOut).unlistened = false := by
  constructor <;> rfl

/-- C4 amended: `fetch_via_window` unregisters the listener and destroys the
webview on the successful-payload and 45-second-timeout paths; on
channel-closed it unregisters the listener but returns without destroying
the webview; on window-creation failure it returns without unregistering the
listener. -/
theorem c4_cleanup_per_path :
    (∀ h : String, fetch_via_window true true (SelectOutcome.payload h) =
      { unlistened := true, workerDestroyed := true, result := .ok h }) ∧
    fetch_via_window true true SelectOutcome.timedOut =
      { unlistened := true, workerDestroyed := true,
        result := .error "Timeout waiting for spider" } ∧
    fetch_via_window true true SelectOutcome.channelClosed =
      { unlistened := true, workerDestroyed := false, result := .error "Channel closed" } ∧
    (∀ sel : SelectOutcome, fetch_via_window true false sel =
      { unlistened := false, workerDestroyed := false,
        result := .error "Failed to create window: build error" }) := by
  exact ⟨fun h => rfl, rfl, rfl, fun sel => rfl⟩

/-! ## C3 — WAF handling of Platform-Q metadata -/

/-- C3 counterexample: the claim states that a browser-rendered page whose
title matches a WAF marker makes `fetch_novel_metadata` fall through to the
mobile fallback, so that with a fallback page titled 测试小说 the call
returns that title.  In the code the WAF check at qidian.rs:153-156 returns
an error directly — the fallback (reached only from the `Err` arm at
qidian.rs:117-121) is never consulted, even though here it would succeed. -/
theorem c3_counterexample :
    fetch_novel_metadata "https://www.qidian.com/book/12345/" (.ok wafQPage)
      (fun _ => .ok mobileTestPage) =
    .error "Browser Spider still caught by WAF" := by
  rfl

/-- C3 amended: the mobile fallback of Platform-Q `fetch_novel_metadata` is
invoked only when the browser worker itself fails; a parsed title matching a
WAF challenge marker makes the operation return an error without attempting
the fallback.  When the worker does fail and the fallback page's title
parses (trimmed, non-empty) as 测试小说, the returned metadata has title
测试小说 and url `https://m.qidian.com/book/<id>`. -/
theorem c3_waf_errors_fallback_only_on_worker_failure
    (url e t : String) (page : QPage) (bookId : List Char) (mp : MobilePage)
    (httpGet : String → Except String MobilePage)
    (hwaf : (strContains (qPageTitle page) "Just a moment" ||
             strContains (qPageTitle page) "Security checking") = true)
    (hid : extractBookId url.data = some bookId)
    (hmp : httpGet ("https://m.qidian.com/book/" ++ String.mk bookId) = .ok mp)
    (ht : mp.titleSel = some t) (htt : rustTrim t = "测试小说") :
    fetch_novel_metadata url (.ok page) httpGet =
      .error "Browser Spider still caught by WAF" ∧
    ∃ md : NovelMetadata, fetch_novel_metadata url (.error e) httpGet = .ok md ∧
      md.title = "测试小说" ∧ md.url = "https://m.qidian.com/book/" ++ String.mk bookId := by
  constructor
  · simp only [fetch_novel_metadata, hwaf, if_true]
  · have hred : fetch_novel_metadata url (.error e) httpGet =
        fetch_mobile_metadata url httpGet := rfl
    rw [hred]
    unfold fetch_mobile_metadata
    simp only [hid]
    simp only [hmp]
    simp only [ht, Option.map_some', htt]
    exact ⟨_, rfl, by rfl, rfl⟩

/-- C3 witness: the amended statement instantiated at a concrete WAF page,
book URL, and fallback page. -/
theorem c3_witness :
    (strContains (qPageTitle wafQPage) "Just a moment" ||
     strContains (qPageTitle wafQPage) "Security checking") = true ∧
    extractBookId "https://www.qidian.com/book/12345/".data = some "12345".data ∧
    mobileTestPage.titleSel = some " 测试小说 " ∧
    rustTrim " 测试小说 " = "测试小说" ∧
    (fetch_novel_metadata "https://www.qidian.com/book/12345/" (.ok wafQPage)
        (fun _ => .ok mobileTestPage) =
      .error "Browser Spider still caught by WAF" ∧
    ∃ md : NovelMetadata,
      fetch_novel_metadata "https://www.qidian.com/book/12345/" (.error "worker failed")
        (fun _ => .ok mobileTestPage) = .ok md ∧
      md.title = "测试小说" ∧ md.url = "https://m.qidian.com/book/" ++ String.mk "12345".data) :=
  ⟨by rfl, by rfl, by rfl, by rfl,
   c3_waf_errors_fallback_only_on_worker_failure
     "https://www.qidian.com/book/12345/" "worker failed" " 测试小说 "
     wafQPage "12345".data mobileTestPage (fun _ => .ok mobileTestPage)
     (by rfl) (by rfl) (by rfl) (by rfl) (by rfl)⟩

/-! ## C6 — rank list order and deduplication -/

/-- The rank collection loop is the first-occurrence deduplication of the
normalised candidates, relative to an initial seen-set and accumulator. -/
theorem rankLoop_eq_dedupFirstAux (url : String) :
    ∀ (hs seen links : List String),
      rankLoop url hs seen links = links ++ dedupFirstAux seen (rankCandidates url hs) := by
  intro hs
  induction hs with
  | nil => intro seen links; simp [rankLoop, rankCandidates, dedupFirstAux]
  | cons h t ih =>
    intro seen links
    by_cases h0 : h = ""
    · subst h0
      rw [show rankCandidates url ("" :: t) = rankCandidates url t from by
        simp [rankCandidates, List.filter_cons]]
      simp only [rankLoop, if_pos rfl]
      exact ih seen links
    · simp only [rankLoop, if_neg h0]
      by_cases hbook : strContains (normalizeRankHref url h) "/book/" = true
      · have hcand : rankCandidates url (h :: t) =
            normalizeRankHref url h :: rankCandidates url t := by
          simp [rankCandidates, List.filter_cons, h0, hbook]
        rw [hcand, dedupFirstAux]
        by_cases hseen : seen.contains (normalizeRankHref url h) = true
        · have hmem : normalizeRankHref url h ∈ seen := by simpa using hseen
          rw [if_neg (by simp [hbook, hmem]), if_pos hseen]
          exact ih seen links
        · have hmem : normalizeRankHref url h ∉ seen := by simpa using hseen
          rw [if_pos (by simp [hbook, hmem]), if_neg hseen, ih]
          simp
      · have hbookf : strContains (normalizeRankHref url h) "/book/" = false := by
          simpa using hbook
        have hcand : rankCandidates url (h :: t) = rankCandidates url t := by
          simp [rankCandidates, List.filter_cons, h0, hbookf]
        rw [hcand, if_neg (by simp [hbookf])]
        exact ih seen links

/-- First-occurrence deduplication yields a sublist of its input. -/
theorem dedupFirstAux_sublist :
    ∀ (l seen : List String), (dedupFirstAux seen l).Sublist l := by
  intro l
  induction l with
  | nil => intro seen; simp [dedupFirstAux]
  | cons x xs ih =>
    intro seen
    rw [dedupFirstAux]
    split
    · exact (ih seen).cons x
    · exact (ih (seen ++ [x])).cons₂ x

/-- C6: `fetch_rank_list` returns the normalised book URLs of the matching
anchors in DOM order, deduplicated keeping the first occurrence of each URL,
and never sorted: the output is exactly the order-preserving
first-occurrence deduplication of the normalised candidate sequence (a `//`
href gets `https:`, a `/` href is resolved against the mobile host iff the
source URL contains the mobile subdomain, anchors without `/book/` in the
normalised URL are dropped), and in particular a sublist of that DOM-ordered
sequence. -/
theorem c6_rank_list_order_dedup (url : String) (hrefs : List String) :
    fetch_rank_list url hrefs = dedupFirst (rankCandidates url hrefs) ∧
    (fetch_rank_list url hrefs).Sublist (rankCandidates url hrefs) := by
  constructor
  · simpa [fetch_rank_list, dedupFirst] using rankLoop_eq_dedupFirstAux url hrefs [] []
  · have h := rankLoop_eq_dedupFirstAux url hrefs [] []
    simp only [List.nil_append] at h
    rw [fetch_rank_list, h]
    exact dedupFirstAux_sublist (rankCandidates url hrefs) []

/-! ## C7 — LLM endpoint resolution -/

/-- Stripping trailing slashes ignores one appended slash. -/
theorem trimEndSlashes_append_slash (x : String) :
    trimEndSlashes (x ++ "/") = trimEndSlashes x := by
  obtain ⟨l⟩ := x
  show trimEndSlashes ⟨l ++ ['/']⟩ = trimEndSlashes ⟨l⟩
  simp [trimEndSlashes]

/-- Reversing a list whose last element is not `'/'` gives a list that
`dropWhile (= '/')` leaves untouched. -/
theorem dropWhile_slash_reverse_eq {l : List Char} (h : l.getLast? ≠ some '/') :
    l.reverse.dropWhile (fun c => c = '/') = l.reverse := by
  cases hl : l.reverse with
  | nil => rfl
  | cons c t =>
    have hc : ¬(c = '/') := by
      intro hc
      exact h (by rw [← List.head?_reverse, hl, hc]; rfl)
    simp [List.dropWhile_cons, hc]

/-- A string whose last char is not a slash is untouched by
`trimEndSlashes`. -/
theorem trimEndSlashes_of_getLast_ne (x : String) (h : x.data.getLast? ≠ some '/') :
    trimEndSlashes x = x := by
  unfold trimEndSlashes
  rw [dropWhile_slash_reverse_eq h, List.reverse_reverse]

/-- `trimEndSlashes` leaves a string ending in `/chat/completions`
untouched. -/
theorem trimEndSlashes_chat (x : String) :
    trimEndSlashes (x ++ "/chat/completions") = x ++ "/chat/completions" := by
  apply trimEndSlashes_of_getLast_ne
  rw [String.data_append, List.getLast?_append]
  rw [show ("/chat/completions" : String).data.getLast? = some 's' from rfl]
  simp

/-- Appending `/chat/completions` makes `endsWithChatCompletions` true. -/
theorem endsWithChatCompletions_append (x : String) :
    endsWithChatCompletions (x ++ "/chat/completions") = true := by
  unfold endsWithChatCompletions
  rw [String.data_append, List.reverse_append, List.isPrefixOf_iff_prefix]
  exact List.prefix_append _ _

/-- C7: for every base `x` that neither ends with a slash nor already ends
with `/chat/completions`, all four `api_base` forms `x`, `x/`,
`x/chat/completions`, `x/chat/completions/` resolve to the same POST target
`x/chat/completions`: trailing slashes are stripped and `/chat/completions`
is appended unless the stripped base already ends with it. -/
theorem c7_endpoint_resolution (x : String)
    (hslash : x.data.getLast? ≠ some '/')
    (hchat : endsWithChatCompletions x = false) :
    resolveChatUrl x = x ++ "/chat/completions" ∧
    resolveChatUrl (x ++ "/") = x ++ "/chat/completions" ∧
    resolveChatUrl (x ++ "/chat/completions") = x ++ "/chat/completions" ∧
    resolveChatUrl (x ++ "/chat/completions" ++ "/") = x ++ "/chat/completions" := by
  refine ⟨?_, ?_, ?_, ?_⟩
  · rw [resolveChatUrl, trimEndSlashes_of_getLast_ne x hslash, hchat]
    simp
  · rw [resolveChatUrl, trimEndSlashes_append_slash,
      trimEndSlashes_of_getLast_ne x hslash, hchat]
    simp
  · rw [resolveChatUrl, trimEndSlashes_chat, endsWithChatCompletions_append]
    simp
  · rw [resolveChatUrl, trimEndSlashes_append_slash, trimEndSlashes_chat,
      endsWithChatCompletions_append]
    simp

/-- C7 witness: the resolution at the concrete base `"x"`. -/
theorem c7_witness :
    ("x" : String).data.getLast? ≠ some '/' ∧
    endsWithChatCompletions "x" = false ∧
    (resolveChatUrl "x" = "x" ++ "/chat/completions" ∧
     resolveChatUrl ("x" ++ "/") = "x" ++ "/chat/completions" ∧
     resolveChatUrl ("x" ++ "/chat/completions") = "x" ++ "/chat/completions" ∧
     resolveChatUrl ("x" ++ "/chat/completions" ++ "/") = "x" ++ "/chat/completions") :=
  ⟨by decide, by rfl, c7_endpoint_resolution "x" (by decide) (by rfl)⟩

/-! ## C10 — file tree on a missing path -/

/-- C10: for every path that does not exist on disk, `get_file_tree` returns
`Ok` with an empty node list rather than an error (lib.rs:722-725). -/
theorem c10_get_file_tree_missing_path_ok_empty (entries : List FsEntry) :
    get_file_tree false entries = .ok [] := by
  rfl

/-! ## Decimal formatting facts -/

/-- The fuel of `natDigitsAux` is irrelevant once it exceeds the number. -/
theorem natDigitsAux_fuel : ∀ (n f : Nat), n < f → natDigitsAux f n = natDigits n := by
  intro n
  induction n using Nat.strong_induction_on with
  | _ n ih =>
    intro f hf
    match f with
    | g + 1 =>
      rw [natDigits]
      simp only [natDigitsAux]
      by_cases h10 : n < 10
      · simp [h10]
      · simp only [h10, if_false]
        have hdiv : n / 10 < n := Nat.div_lt_self (by omega) (by omega)
        rw [ih (n / 10) hdiv g (by omega), ih (n / 10) hdiv n (by omega)]

/-- Digit characters decode to their value. -/
theorem natDigitChar_toNat (d : Nat) (h : d < 10) : (natDigitChar d).toNat = 48 + d := by
  interval_cases d <;> decide

/-- Appending a digit multiplies the value by ten and adds the digit. -/
theorem digitsVal_append_digit (l : List Char) (c : Char) :
    digitsVal (l ++ [c]) = digitsVal l * 10 + (c.toNat - 48) := by
  simp [digitsVal, List.foldl_append]

/-- `digitsVal` inverts `natDigits`. -/
theorem digitsVal_natDigits : ∀ n : Nat, digitsVal (natDigits n) = n := by
  intro n
  induction n using Nat.strong_induction_on with
  | _ n ih =>
    by_cases h10 : n < 10
    · rw [natDigits]
      simp only [natDigitsAux, h10, if_true]
      simp [digitsVal, natDigitChar_toNat n h10]
    · have hdiv : n / 10 < n := Nat.div_lt_self (by omega) (by omega)
      rw [natDigits]
      simp only [natDigitsAux, h10, if_false]
      rw [natDigitsAux_fuel (n / 10) n hdiv, digitsVal_append_digit, ih (n / 10) hdiv,
        natDigitChar_toNat (n % 10) (Nat.mod_lt _ (by omega))]
      omega

/-- A leading zero does not change the decoded value. -/
theorem digitsVal_cons_zero (l : List Char) : digitsVal ('0' :: l) = digitsVal l := rfl

/-- `digitsVal` recovers the number from its `{:02}` rendering. -/
theorem digitsVal_fmt02_data (n : Nat) : digitsVal (fmt02 n).data = n := by
  unfold fmt02
  by_cases h : n < 10
  · simp only [h, if_true]
    rw [digitsVal_cons_zero]
    exact digitsVal_natDigits n
  · simp only [h, if_false]
    exact digitsVal_natDigits n

/-- The `{:02}` rendering is injective. -/
theorem fmt02_inj {a b : Nat} (h : fmt02 a = fmt02 b) : a = b := by
  have h2 := congrArg (fun s => digitsVal s.data) h
  simpa [digitsVal_fmt02_data] using h2

/-- Chapter file names are distinct across distinct indices. -/
theorem chapterFileName_inj {i j : Nat} (h : chapterFileName i = chapterFileName j) :
    i = j := by
  unfold chapterFileName at h
  have hdata := congrArg String.data h
  rw [String.data_append, String.data_append] at hdata
  have hl : (fmt02 (i + 1)).data = (fmt02 (j + 1)).data := List.append_cancel_right hdata
  have h1 := congrArg digitsVal hl
  rw [digitsVal_fmt02_data, digitsVal_fmt02_data] at h1
  omega

/-! ## Per-chapter loop facts -/

/-- The retry loop succeeds exactly when one of the three attempts does. -/
theorem tryAttempts_isSome_iff (dl : String → Nat → Except String (String × String))
    (u : String) : (tryAttempts dl u 0 3).2.isSome = anyAttemptOk dl u := by
  unfold anyAttemptOk
  rcases h0 : dl u 0 with e0 | r0 <;> rcases h1 : dl u 1 with e1 | r1 <;>
    rcases h2 : dl u 2 with e2 | r2 <;>
      simp [tryAttempts, h0, h1, h2, Except.isOk, Except.toBool]

/-- The chapter loop never removes a file. -/
theorem runChapters_files_mono
    (dl : String → Nat → Except String (String × String)) (isBatch : Bool)
    (safe platform : String) :
    ∀ (batch : List (String × String)) (i : Nat) (st : PipeState) (x : String),
      x ∈ st.files → x ∈ (runChapters dl isBatch safe platform batch i st).files := by
  intro batch
  induction batch with
  | nil => intro i st x hx; exact hx
  | cons c rest ih =>
    intro i st x hx
    obtain ⟨title, href⟩ := c
    simp only [runChapters]
    split
    · exact ih _ _ x hx
    · split
      · exact ih _ _ x (List.mem_append_left _ hx)
      · exact ih _ _ x hx

/-- If every chapter file of the batch is already present, the (non-batch)
loop only skips: one `skipped` event per chapter, the skip counter grows by
the batch length, and nothing else changes. -/
theorem runChapters_all_skipped
    (dl : String → Nat → Except String (String × String)) (safe platform : String) :
    ∀ (batch : List (String × String)) (i : Nat) (st : PipeState),
      (∀ j, j < batch.length → chapterFileName (i + j) ∈ st.files) →
      runChapters dl false safe platform batch i st =
        { st with
          events := st.events ++ batch.map (fun c =>
            ⟨"跳过已存在章节 [" ++ safe ++ "] - " ++ c.1, "skipped"⟩),
          skippedCount := st.skippedCount + batch.length } := by
  intro batch
  induction batch with
  | nil => intro i st _; simp [runChapters]
  | cons c rest ih =>
    intro i st hall
    obtain ⟨title, href⟩ := c
    have h0 : chapterFileName i ∈ st.files := by simpa using hall 0 (by simp)
    simp only [runChapters]
    rw [if_pos (by simpa using h0)]
    rw [ih (i + 1) _ (fun j hj => by
      have hh := hall (j + 1) (by simpa using Nat.succ_lt_succ hj)
      simpa [show i + (j + 1) = i + 1 + j by omega] using hh)]
    simp only [List.map_cons, PipeState.mk.injEq, List.append_assoc, List.cons_append,
      List.nil_append, List.length_cons, true_and, and_true]
    constructor
    · rfl
    · omega

/-- If every chapter of the batch has a succeeding download attempt, every
chapter file of the batch is present after the loop. -/
theorem runChapters_completes
    (dl : String → Nat → Except String (String × String)) (isBatch : Bool)
    (safe platform : String) :
    ∀ (batch : List (String × String)) (i : Nat) (st : PipeState),
      (∀ j, j < batch.length →
        anyAttemptOk dl (chapterUrl platform (batch.getD j ("", "")).2) = true) →
      ∀ j, j < batch.length →
        chapterFileName (i + j) ∈ (runChapters dl isBatch safe platform batch i st).files := by
  intro batch
  induction batch with
  | nil => intro i st _ j hj; simp at hj
  | cons c rest ih =>
    intro i st hsucc j hj
    obtain ⟨title, href⟩ := c
    match j with
    | 0 =>
      simp only [runChapters, Nat.add_zero]
      by_cases hex : st.files.contains (chapterFileName i) = true
      · rw [if_pos hex]
        exact runChapters_files_mono dl isBatch safe platform rest (i + 1) _ _
          (by simpa using hex)
      · rw [if_neg hex]
        have hok : anyAttemptOk dl (chapterUrl platform href) = true := by
          simpa using hsucc 0 (by simp)
        have hsome : (tryAttempts dl (chapterUrl platform href) 0 3).2.isSome = true := by
          rw [tryAttempts_isSome_iff]
          exact hok
        cases htry : (tryAttempts dl (chapterUrl platform href) 0 3).2 with
        | none => rw [htry] at hsome; simp at hsome
        | some content =>
          exact runChapters_files_mono dl isBatch safe platform rest (i + 1) _ _
            (by simp)
    | j + 1 =>
      have hsucc2 : ∀ k, k < rest.length →
          anyAttemptOk dl (chapterUrl platform (rest.getD k ("", "")).2) = true := by
        intro k hk
        simpa using hsucc (k + 1) (by simpa using Nat.succ_lt_succ hk)
      have hj2 : j < rest.length := by simpa using Nat.lt_of_succ_lt_succ hj
      have hidx : i + (j + 1) = (i + 1) + j := by omega
      simp only [runChapters]
      rw [hidx]
      split
      · exact ih (i + 1) _ hsucc2 j hj2
      · split
        · exact ih (i + 1) _ hsucc2 j hj2
        · exact ih (i + 1) _ hsucc2 j hj2

/-- `createdFrom` only inspects membership of the relevant chapter files in
its file set. -/
theorem createdFrom_congr
    (dl : String → Nat → Except String (String × String)) (platform : String) :
    ∀ (batch : List (String × String)) (i : Nat) (f1 f2 : List String),
      (∀ k, i ≤ k → (chapterFileName k ∈ f1 ↔ chapterFileName k ∈ f2)) →
      createdFrom dl platform batch i f1 = createdFrom dl platform batch i f2 := by
  intro batch
  induction batch with
  | nil => intro i f1 f2 _; rfl
  | cons c rest ih =>
    intro i f1 f2 hiff
    obtain ⟨title, href⟩ := c
    have hiff2 : ∀ k, i + 1 ≤ k → (chapterFileName k ∈ f1 ↔ chapterFileName k ∈ f2) :=
      fun k hk => hiff k (by omega)
    rw [createdFrom, createdFrom]
    by_cases hmem : chapterFileName i ∈ f1
    · rw [if_pos hmem, if_pos ((hiff i (le_refl i)).mp hmem)]
      exact ih (i + 1) f1 f2 hiff2
    · rw [if_neg hmem, if_neg (fun hc => hmem ((hiff i (le_refl i)).mpr hc))]
      split
      · rw [ih (i + 1) f1 f2 hiff2]
      · exact ih (i + 1) f1 f2 hiff2

/-- The chapter files after the loop are the initial ones followed, in input
order, by exactly the files of `createdFrom`: one per chapter that was
neither pre-existing nor failed by all three download attempts. -/
theorem runChapters_files_eq
    (dl : String → Nat → Except String (String × String)) (isBatch : Bool)
    (safe platform : String) :
    ∀ (batch : List (String × String)) (i : Nat) (st : PipeState),
      (runChapters dl isBatch safe platform batch i st).files =
        st.files ++ createdFrom dl platform batch i st.files := by
  intro batch
  induction batch with
  | nil => intro i st; simp [runChapters, createdFrom]
  | cons c rest ih =>
    intro i st
    obtain ⟨title, href⟩ := c
    rw [createdFrom]
    by_cases hmem : chapterFileName i ∈ st.files
    · simp only [runChapters]
      rw [if_pos (by simpa using hmem), if_pos hmem]
      exact ih (i + 1) _
    · have hcg : ∀ k, i + 1 ≤ k →
          (chapterFileName k ∈ st.files ++ [chapterFileName i] ↔
           chapterFileName k ∈ st.files) := by
        intro k hk
        simp only [List.mem_append, List.mem_singleton]
        constructor
        · rintro (hin | heq)
          · exact hin
          · exact absurd (chapterFileName_inj heq) (by omega)
        · exact fun hin => Or.inl hin
      rw [if_neg hmem]
      have ihx : ∀ st2 : PipeState, st2.files = st.files ++ [chapterFileName i] →
          (runChapters dl isBatch safe platform rest (i + 1) st2).files =
            (st.files ++ [chapterFileName i]) ++
              createdFrom dl platform rest (i + 1) (st.files ++ [chapterFileName i]) := by
        intro st2 h2
        rw [ih (i + 1) st2, h2]
      cases htry : (tryAttempts dl (chapterUrl platform href) 0 3).2 with
      | some content =>
        have hok : anyAttemptOk dl (chapterUrl platform href) = true := by
          rw [← tryAttempts_isSome_iff, htry]
          rfl
        simp only [runChapters, htry]
        rw [if_neg (by simpa using hmem), if_pos hok, ihx _ rfl,
          createdFrom_congr dl platform rest (i + 1) _ _ hcg]
        simp
      | none =>
        have hok : anyAttemptOk dl (chapterUrl platform href) = false := by
          rw [← tryAttempts_isSome_iff, htry]
          rfl
        simp only [runChapters, htry]
        rw [if_neg (by simpa using hmem), hok]
        simp only [Bool.false_eq_true, if_false]
        exact ih (i + 1) _

/-! ## Shape of `process_novel_download` runs -/

/-- When the metadata and chapter-list calls succeed, the run is exactly the
per-chapter loop over the batch, after the three `running` events. -/
theorem process_ok_shape (env : PipeEnv) (url : String) (count : Nat) (isBatch : Bool)
    (platform : String) (init : List String) (m : NovelMetadata)
    (chs : List (String × String))
    (hplat : platform = "fanqie" ∨ platform = "qidian")
    (hmeta : env.metadata = .ok m)
    (hchs : (if platform = "fanqie" then env.fanqieChapters else env.qidianChapters) =
      .ok chs) :
    process_novel_download env url count isBatch platform init =
      (runChapters env.download isBatch (safeTitle m.title) platform
        (batchOf platform chs count) 0
        { files := init,
          events := [⟨"正在获取元数据: " ++ url, "running"⟩,
            ⟨"正在获取章节列表 [" ++ safeTitle m.title ++ "]...", "running"⟩,
            ⟨"准备下载 " ++ String.mk (natDigits (batchOf platform chs count).length) ++
              " 章 (总请求: " ++ String.mk (natDigits count) ++ ")...", "running"⟩],
          downloadCalls := 0, downloadedCount := 0, skippedCount := 0,
          infoWritten := true },
       .ok (safeTitle m.title)) := by
  rcases hplat with hp | hp
  · subst hp
    have hc : env.fanqieChapters = .ok chs := by simpa using hchs
    simp only [process_novel_download, hmeta, hc]
    rfl
  · subst hp
    have hc : env.qidianChapters = .ok chs := by simpa using hchs
    simp only [process_novel_download, hmeta, hc]
    rfl

/-- When the Platform-Q chapter-list call fails, the run stops with an
`error` event and an `Err` return, leaving the chapter files untouched. -/
theorem process_qidian_list_error_shape (env : PipeEnv) (url : String) (count : Nat)
    (isBatch : Bool) (init : List String) (m : NovelMetadata) (e : String)
    (hmeta : env.metadata = .ok m) (hq : env.qidianChapters = .error e) :
    process_novel_download env url count isBatch "qidian" init =
      ({ files := init,
         events := [⟨"正在获取元数据: " ++ url, "running"⟩,
           ⟨"正在获取章节列表 [" ++ safeTitle m.title ++ "]...", "running"⟩,
           ⟨"获取章节列表失败: " ++ e, "error"⟩],
         downloadCalls := 0, downloadedCount := 0, skippedCount := 0,
         infoWritten := true },
       .error ("获取章节列表失败: " ++ e)) := by
  simp only [process_novel_download, hmeta, hq]
  rfl

/-- Counting the skip events of a batch. -/
theorem skipEvents_filter_length (safe : String) (batch : List (String × String)) :
    ((batch.map (fun c =>
        (⟨"跳过已存在章节 [" ++ safe ++ "] - " ++ c.1, "skipped"⟩ : Progress))).filter
      (fun p => p.status = "skipped")).length = batch.length := by
  induction batch with
  | nil => rfl
  | cons c rest ih => simp [List.filter_cons, ih]

/-! ## C5 — dedup idempotence of the per-novel flow -/

/-- C5: running the per-novel flow (non-batch) a second time with the same
inputs after a first run that completed every chapter performs zero chapter
downloads.  After the first run every chapter file of the batch exists; the
second run emits one `skipped` event per chapter of the batch and nothing
else from the chapter loop, makes no `download_chapter` call, ends with
`downloaded_count = 0` and `skipped_count` equal to the number of (all
existing) chapter files of the batch, leaves the files untouched and still
returns the sanitised title. -/
theorem c5_dedup_idempotence
    (platform url : String) (count : Nat) (init : List String)
    (m : NovelMetadata) (chs : List (String × String)) (envA envB : PipeEnv)
    (hplat : platform = "fanqie" ∨ platform = "qidian")
    (hmA : envA.metadata = .ok m) (hmB : envB.metadata = .ok m)
    (hcA : (if platform = "fanqie" then envA.fanqieChapters else envA.qidianChapters) =
      .ok chs)
    (hcB : (if platform = "fanqie" then envB.fanqieChapters else envB.qidianChapters) =
      .ok chs)
    (hsucc : ∀ j, j < (batchOf platform chs count).length →
      anyAttemptOk envA.download
        (chapterUrl platform ((batchOf platform chs count).getD j ("", "")).2) = true) :
    (∀ j, j < (batchOf platform chs count).length →
      chapterFileName j ∈ (process_novel_download envA url count false platform init).1.files) ∧
    (process_novel_download envB url count false platform
      (process_novel_download envA url count false platform init).1.files).1.downloadCalls = 0 ∧
    (process_novel_download envB url count false platform
      (process_novel_download envA url count false platform init).1.files).1.downloadedCount = 0 ∧
    (process_novel_download envB url count false platform
      (process_novel_download envA url count false platform init).1.files).1.skippedCount =
      (batchOf platform chs count).length ∧
    (((process_novel_download envB url count false platform
      (process_novel_download envA url count false platform init).1.files).1.events.filter
        (fun p => p.status = "skipped")).length = (batchOf platform chs count).length) ∧
    (process_novel_download envB url count false platform
      (process_novel_download envA url count false platform init).1.files).1.files =
      (process_novel_download envA url count false platform init).1.files ∧
    (process_novel_download envB url count false platform
      (process_novel_download envA url count false platform init).1.files).2 =
      .ok (safeTitle m.title) := by
  have hshapeA := process_ok_shape envA url count false platform init m chs hplat hmA hcA
  have hr1files : ∀ j, j < (batchOf platform chs count).length →
      chapterFileName j ∈ (process_novel_download envA url count false platform init).1.files := by
    intro j hj
    rw [hshapeA]
    simpa using runChapters_completes envA.download false (safeTitle m.title) platform
      (batchOf platform chs count) 0 _ hsucc j hj
  refine ⟨hr1files, ?_⟩
  have hshapeB := process_ok_shape envB url count false platform
    (process_novel_download envA url count false platform init).1.files m chs hplat hmB hcB
  have hall : ∀ j, j < (batchOf platform chs count).length →
      chapterFileName (0 + j) ∈
        (process_novel_download envA url count false platform init).1.files := by
    intro j hj
    simpa using hr1files j hj
  have hskip := runChapters_all_skipped envB.download (safeTitle m.title) platform
    (batchOf platform chs count) 0
    { files := (process_novel_download envA url count false platform init).1.files,
      events := [⟨"正在获取元数据: " ++ url, "running"⟩,
        ⟨"正在获取章节列表 [" ++ safeTitle m.title ++ "]...", "running"⟩,
        ⟨"准备下载 " ++ String.mk (natDigits (batchOf platform chs count).length) ++
          " 章 (总请求: " ++ String.mk (natDigits count) ++ ")...", "running"⟩],
      downloadCalls := 0, downloadedCount := 0, skippedCount := 0,
      infoWritten := true } hall
  rw [hshapeB]
  rw [show (runChapters envB.download false (safeTitle m.title) platform
      (batchOf platform chs count) 0
      { files := (process_novel_download envA url count false platform init).1.files,
        events := [⟨"正在获取元数据: " ++ url, "running"⟩,
          ⟨"正在获取章节列表 [" ++ safeTitle m.title ++ "]...", "running"⟩,
          ⟨"准备下载 " ++ String.mk (natDigits (batchOf platform chs count).length) ++
            " 章 (总请求: " ++ String.mk (natDigits count) ++ ")...", "running"⟩],
        downloadCalls := 0, downloadedCount := 0, skippedCount := 0,
        infoWritten := true },
     (Except.ok (safeTitle m.title) : Except String String)).1 =
    runChapters envB.download false (safeTitle m.title) platform
      (batchOf platform chs count) 0
      { files := (process_novel_download envA url count false platform init).1.files,
        events := [⟨"正在获取元数据: " ++ url, "running"⟩,
          ⟨"正在获取章节列表 [" ++ safeTitle m.title ++ "]...", "running"⟩,
          ⟨"准备下载 " ++ String.mk (natDigits (batchOf platform chs count).length) ++
            " 章 (总请求: " ++ String.mk (natDigits count) ++ ")...", "running"⟩],
        downloadCalls := 0, downloadedCount := 0, skippedCount := 0,
        infoWritten := true } from rfl]
  rw [hskip]
  refine ⟨rfl, rfl, by simp, ?_, rfl, rfl⟩
  simp only [List.filter_append]
  rw [show ([⟨"正在获取元数据: " ++ url, "running"⟩,
      ⟨"正在获取章节列表 [" ++ safeTitle m.title ++ "]...", "running"⟩,
      ⟨"准备下载 " ++ String.mk (natDigits (batchOf platform chs count).length) ++
        " 章 (总请求: " ++ String.mk (natDigits count) ++ ")...", "running"⟩] :
        List Progress).filter (fun p => p.status = "skipped") = [] from rfl]
  rw [List.nil_append, skipEvents_filter_length]

/-- C5 witness: a Platform-Q run with two chapters, an always-succeeding
first environment and the same environment rerun with a failing network. -/
theorem c5_witness :
    (∀ j, j < (batchOf "qidian" qidianTestChapters 2).length →
      anyAttemptOk envOkDownload.download
        (chapterUrl "qidian" ((batchOf "qidian" qidianTestChapters 2).getD j ("", "")).2) =
        true) ∧
    (process_novel_download envOkDownloadRerun "u" 2 false "qidian"
      (process_novel_download envOkDownload "u" 2 false "qidian" []).1.files).1.downloadCalls
      = 0 ∧
    (process_novel_download envOkDownloadRerun "u" 2 false "qidian"
      (process_novel_download envOkDownload "u" 2 false "qidian" []).1.files).1.skippedCount
      = (batchOf "qidian" qidianTestChapters 2).length :=
  ⟨by decide,
   (c5_dedup_idempotence "qidian" "u" 2 []
      { title := "T/1", url := "u", tags := [], word_count := "w", description := "" }
      qidianTestChapters envOkDownload envOkDownloadRerun (Or.inr rfl) rfl rfl rfl rfl
      (by decide)).2.1,
   (c5_dedup_idempotence "qidian" "u" 2 []
      { title := "T/1", url := "u", tags := [], word_count := "w", description := "" }
      qidianTestChapters envOkDownload envOkDownloadRerun (Or.inr rfl) rfl rfl rfl rfl
      (by decide)).2.2.2.1⟩

/-! ## C8 — empty Platform-Q catalog is fatal -/

/-- C8: whenever zero chapter links are parsed from the catalog page,
Platform-Q `fetch_chapter_list` returns an error; the per-novel pipeline
(run through `start_download`) then emits a progress event with status
`error`, creates no chapter files, and emits no `completed` event for that
novel. -/
theorem c8_empty_catalog_fatal (url : String) (bookId : List Char)
    (anchors : List (String × String))
    (browser : String → Except String (List (String × String)))
    (env : PipeEnv) (count : Nat) (init : List String) (m : NovelMetadata)
    (hid : extractBookId url.data = some bookId)
    (hb : browser ("https://m.qidian.com/book/" ++ String.mk bookId ++ "/catalog") =
      .ok anchors)
    (hempty : chapterLoop anchors = [])
    (hmeta : env.metadata = .ok m)
    (henv : env.qidianChapters = fetch_chapter_list url browser) :
    fetch_chapter_list url browser = .error "No chapters found in catalog." ∧
    (start_download_run env url count "qidian" init).files = init ∧
    (∃ p ∈ (start_download_run env url count "qidian" init).events, p.status = "error") ∧
    (∀ p ∈ (start_download_run env url count "qidian" init).events,
      p.status ≠ "completed") := by
  have hfcl : fetch_chapter_list url browser = .error "No chapters found in catalog." := by
    unfold fetch_chapter_list
    simp only [hid]
    simp only [hb]
    simp only [hempty, List.isEmpty_nil, if_true]
  have hq : env.qidianChapters = .error "No chapters found in catalog." :=
    henv.trans hfcl
  have hshape := process_qidian_list_error_shape env url count false init m
    "No chapters found in catalog." hmeta hq
  have hrun : start_download_run env url count "qidian" init =
      { files := init,
        events := [⟨"正在获取元数据: " ++ url, "running"⟩,
          ⟨"正在获取章节列表 [" ++ safeTitle m.title ++ "]...", "running"⟩,
          ⟨"获取章节列表失败: " ++ "No chapters found in catalog.", "error"⟩,
          ⟨"Error: " ++ ("获取章节列表失败: " ++ "No chapters found in catalog."),
            "error"⟩],
        downloadCalls := 0, downloadedCount := 0, skippedCount := 0,
        infoWritten := true } := by
    unfold start_download_run
    rw [hshape]
    rfl
  refine ⟨hfcl, ?_, ?_, ?_⟩
  · rw [hrun]
  · rw [hrun]
    exact ⟨⟨"获取章节列表失败: " ++ "No chapters found in catalog.", "error"⟩,
      by simp, rfl⟩
  · rw [hrun]
    intro p hp
    simp only [List.mem_cons, List.not_mem_nil, or_false] at hp
    rcases hp with h1 | h1 | h1 | h1 <;> subst h1
    · show ("running" : String) ≠ "completed"
      decide
    · show ("running" : String) ≠ "completed"
      decide
    · show ("error" : String) ≠ "completed"
      decide
    · show ("error" : String) ≠ "completed"
      decide

/-- C8 witness: the concrete catalog whose page has no chapter anchors. -/
theorem c8_witness :
    extractBookId "https://m.qidian.com/book/123".data = some "123".data ∧
    chapterLoop ([] : List (String × String)) = [] ∧
    (fetch_chapter_list "https://m.qidian.com/book/123" (fun _ => .ok []) =
      .error "No chapters found in catalog." ∧
    (start_download_run envEmptyCatalog "https://m.qidian.com/book/123" 2 "qidian"
      []).files = [] ∧
    (∃ p ∈ (start_download_run envEmptyCatalog "https://m.qidian.com/book/123" 2 "qidian"
      []).events, p.status = "error") ∧
    (∀ p ∈ (start_download_run envEmptyCatalog "https://m.qidian.com/book/123" 2 "qidian"
      []).events, p.status ≠ "completed")) :=
  ⟨by rfl, rfl,
   c8_empty_catalog_fatal "https://m.qidian.com/book/123" "123".data []
     (fun _ => .ok []) envEmptyCatalog 2 []
     { title := "T", url := "u", tags := [], word_count := "w", description := "" }
     (by rfl) rfl rfl rfl rfl⟩

/-! ## C9 — filename law -/

/-- C9 counterexample: the claim states that for a batch of N chapters the
files created are exactly `{01..N:02}.txt` minus the skipped ones.  With
N = 1, nothing pre-existing (no skips) and every download attempt failing,
the code creates no file at all, while the claim requires `01.txt`. -/
theorem c9_counterexample :
    (batchOf "qidian" [("c1", "https://m.qidian.com/chapter/1")] 1).length = 1 ∧
    (process_novel_download envFailDownload "u" 1 false "qidian" []).1.skippedCount = 0 ∧
    (process_novel_download envFailDownload "u" 1 false "qidian" []).1.files = [] := by
  refine ⟨rfl, rfl, rfl⟩

/-- C9 amended: for a per-novel run whose batch holds N chapters, the
chapter files created under the novel directory are exactly
`{01..N:02}.txt` minus the skipped (pre-existing) ones **and minus those
whose three download attempts all failed**, the chapter at 0-based index i
being written to `{i+1:02}.txt`, in input order — precisely the
`createdFrom` sequence. -/
theorem c9_filename_law (platform url : String) (count : Nat) (isBatch : Bool)
    (init : List String) (m : NovelMetadata) (chs : List (String × String))
    (env : PipeEnv)
    (hplat : platform = "fanqie" ∨ platform = "qidian")
    (hmeta : env.metadata = .ok m)
    (hchs : (if platform = "fanqie" then env.fanqieChapters else env.qidianChapters) =
      .ok chs) :
    (process_novel_download env url count isBatch platform init).1.files =
      init ++ createdFrom env.download platform (batchOf platform chs count) 0 init := by
  rw [process_ok_shape env url count isBatch platform init m chs hplat hmeta hchs]
  rw [show (runChapters env.download isBatch (safeTitle m.title) platform
      (batchOf platform chs count) 0
      { files := init,
        events := [⟨"正在获取元数据: " ++ url, "running"⟩,
          ⟨"正在获取章节列表 [" ++ safeTitle m.title ++ "]...", "running"⟩,
          ⟨"准备下载 " ++ String.mk (natDigits (batchOf platform chs count).length) ++
            " 章 (总请求: " ++ String.mk (natDigits count) ++ ")...", "running"⟩],
        downloadCalls := 0, downloadedCount := 0, skippedCount := 0,
        infoWritten := true },
     (Except.ok (safeTitle m.title) : Except String String)).1 =
    runChapters env.download isBatch (safeTitle m.title) platform
      (batchOf platform chs count) 0
      { files := init,
        events := [⟨"正在获取元数据: " ++ url, "running"⟩,
          ⟨"正在获取章节列表 [" ++ safeTitle m.title ++ "]...", "running"⟩,
          ⟨"准备下载 " ++ String.mk (natDigits (batchOf platform chs count).length) ++
            " 章 (总请求: " ++ String.mk (natDigits count) ++ ")...", "running"⟩],
        downloadCalls := 0, downloadedCount := 0, skippedCount := 0,
        infoWritten := true } from rfl]
  rw [runChapters_files_eq]

/-- C9 witness: the failing concrete run evaluated through the amended law —
one chapter, no pre-existing file, downloads failing, so `createdFrom` is
empty and no file is created. -/
theorem c9_witness :
    envFailDownload.metadata = .ok { title := "T", url := "u", tags := [], word_count := "w", description := "" } ∧
    (process_novel_download envFailDownload "u" 1 false "qidian" []).1.files =
      [] ++ createdFrom envFailDownload.download "qidian"
        (batchOf "qidian" [("c1", "https://m.qidian.com/chapter/1")] 1) 0 [] :=
  ⟨rfl,
   c9_filename_law "qidian" "u" 1 false []
     { title := "T", url := "u", tags := [], word_count := "w", description := "" }
     [("c1", "https://m.qidian.com/chapter/1")] envFailDownload (Or.inr rfl) rfl rfl⟩

end NS

